import Mathlib

/-!
Shallow embedding of `src/main.py` (K-nobata/ss2): a batch pipeline that
fetches a catalog of app ids, per app fetches a Japanese-language review
summary, an all-languages review summary and store details, filters by a
minimum Japanese review count (200), derives a positive-rate percentage,
accumulates entries, checkpoints every `SAVE_EVERY` entries, sorts the
accumulated list descending by `positive_rate_jp` and persists it.

HTTP responses are modelled by the `Fetch` type: either an exception
(`exn`, covering network errors and JSON-parse failures, which the source
catches) or a response with a status code and a parsed body.  Python float
arithmetic (`round(x, 2)`) is modelled exactly on `ℚ`.  File writes are
modelled as storing the written value; `json.dump` is a deterministic
function of that value.
-/

namespace SS2

/-- The `query_summary` object of the review endpoint (spec §3 ReviewSummary). -/
structure ReviewSummary where
  total_reviews : ℕ
  total_positive : ℕ
  total_negative : ℕ
deriving DecidableEq, Repr

/-- The optional `price_overview` object inside the details payload. -/
structure PriceOverview where
  initial : Option ℤ
  price_final : Option ℤ
  discount_percent : Option ℤ
deriving DecidableEq, Repr

/-- The `data` object of the details payload, with the fields `get_app_details`
reads: `release_date.date` (optional), the genre and category description lists,
and the optional `price_overview`. -/
structure DetailsData where
  release_date : Option String
  genres : List String
  categories : List String
  price_overview : Option PriceOverview
deriving DecidableEq, Repr

/-- The object stored under the appid key in the details response:
`{success: bool, data: {...}}`. -/
structure DetailsOuter where
  success : Bool
  data : DetailsData
deriving DecidableEq, Repr

/-- An HTTP fetch outcome: an exception (network error, JSON parse error), or a
response with a status code and parsed body.  An `Option` body models a JSON
field that may be missing (`dict.get`). -/
inductive Fetch (α : Type) where
  | exn : Fetch α
  | resp (status : ℕ) (body : α) : Fetch α
deriving DecidableEq, Repr

/-- The record assembled by `get_app_details` on success (lines 95-102). -/
structure AppDetails where
  release_date : Option String
  genres : List String
  categories : List String
  price_initial : Option ℤ
  price_final : Option ℤ
  discount_percent : Option ℤ
deriving DecidableEq, Repr

/-- One element of the catalog list: `{appid, name}`. -/
structure CatalogEntry where
  appid : ℕ
  name : String
deriving DecidableEq, Repr

/-- Python `round(x, 2)` on the exact rational value of `x`: round `100 * x` to
the nearest integer and divide by `100` (half-integer ties round up here, where
CPython's float rounding is ties-to-even; no claim depends on tie direction). -/
def round2 (q : ℚ) : ℚ := (round (q * 100) : ℤ) / 100

/-- Model of `get_review_summary` (lines 46-54): any exception yields `None`
(caught), a non-200 status yields `None`, otherwise the value of
`data.get("query_summary")` (which may itself be missing). -/
def get_review_summary (r : Fetch (Option ReviewSummary)) : Option ReviewSummary :=
  match r with
  | .exn => none
  | .resp status body => if status ≠ 200 then none else body

/-- Model of `get_app_details` (lines 56-105): exceptions and non-200 statuses
yield `None`; a body without the appid key (`outer = {}`) or with a falsy
`success` flag yields `None`; otherwise the detail fields are extracted, price
fields defaulting to `None` when `price_overview` is absent. -/
def get_app_details (r : Fetch (Option DetailsOuter)) : Option AppDetails :=
  match r with
  | .exn => none
  | .resp status body =>
    if status ≠ 200 then none
    else
      match body with
      | none => none
      | some outer =>
        if !outer.success then none
        else
          some
            { release_date := outer.data.release_date
              genres := outer.data.genres
              categories := outer.data.categories
              price_initial := outer.data.price_overview.bind (fun p => p.initial)
              price_final := outer.data.price_overview.bind (fun p => p.price_final)
              discount_percent := outer.data.price_overview.bind (fun p => p.discount_percent) }

/-- The persisted unit (lines 151-166): spec §3 RankingEntry. -/
structure RankingEntry where
  appid : ℕ
  name : String
  release_date : Option String
  genres : List String
  categories : List String
  total_reviews_jp : ℕ
  positive_rate_jp : ℚ
  total_reviews_all : Option ℕ
  positive_rate_all : Option ℚ
  store_url : String
  image_url : String
  price_initial : Option ℤ
  price_final : Option ℤ
  discount_percent : Option ℤ
deriving DecidableEq, Repr

/-- The upstream world a run observes: the catalog returned by `get_app_list`,
and per appid the raw responses of the Japanese review endpoint, the
all-languages review endpoint and the details endpoint.  The source builds each
URL from the appid alone, so each channel is a function of the appid. -/
structure Env where
  appList : List CatalogEntry
  jp : ℕ → Fetch (Option ReviewSummary)
  allLang : ℕ → Fetch (Option ReviewSummary)
  details : ℕ → Fetch (Option DetailsOuter)

/-- The tunable configuration read from the environment (lines 21-23). -/
structure Config where
  MAX_APPS : ℕ
  SAVE_EVERY : ℕ
deriving DecidableEq, Repr

/-- Line 134: `round(jp["total_positive"] / total_jp * 100, 2)` on exact values. -/
def jpRate (jp : ReviewSummary) : ℚ :=
  round2 ((jp.total_positive : ℚ) / (jp.total_reviews : ℚ) * 100)

/-- Lines 137-143: the `(total_all, positive_rate_all)` pair.  When the
all-languages summary is present the counts default to 0 when missing (modelled
as record fields) and the divisor is guarded by `max(total_all, 1)`; when it is
absent both fields are `None`. -/
def allFields : Option ReviewSummary → Option ℕ × Option ℚ
  | some all_qs =>
    (some all_qs.total_reviews,
      some (round2 ((all_qs.total_positive : ℚ) / ((max all_qs.total_reviews 1 : ℕ) : ℚ) * 100)))
  | none => (none, none)

/-- Lines 151-166: assembly of the entry dict from the catalog element, the
Japanese summary, the all-languages pair and the details. -/
def mkEntry (app : CatalogEntry) (jp : ReviewSummary) (pair : Option ℕ × Option ℚ)
    (d : AppDetails) : RankingEntry :=
  { appid := app.appid
    name := app.name.trim
    release_date := d.release_date
    genres := d.genres
    categories := d.categories
    total_reviews_jp := jp.total_reviews
    positive_rate_jp := jpRate jp
    total_reviews_all := pair.1
    positive_rate_all := pair.2
    store_url := "https://store.steampowered.com/app/" ++ toString app.appid
    image_url :=
      "https://cdn.akamai.steamstatic.com/steam/apps/" ++ toString app.appid
        ++ "/capsule_231x87.jpg"
    price_initial := d.price_initial
    price_final := d.price_final
    discount_percent := d.discount_percent }

/-- Lines 121-166 of `main`: per-app qualification and entry assembly.
Returns `none` when the app is skipped (Japanese summary absent, Japanese
`total_reviews` below 200, or details absent), otherwise the assembled entry. -/
def processApp (env : Env) (app : CatalogEntry) : Option RankingEntry :=
  match get_review_summary (env.jp app.appid) with
  | none => none
  | some jp =>
    if jp.total_reviews < 200 then none
    else
      match get_app_details (env.details app.appid) with
      | none => none
      | some d =>
        some (mkEntry app jp (allFields (get_review_summary (env.allLang app.appid))) d)

/-- The mutable state of the accumulation loop: the `results` list and the
content of the checkpoint file `data_partial.json` (`none` = file not written). -/
structure LoopState where
  results : List RankingEntry
  tmpFile : Option (List RankingEntry)
deriving DecidableEq, Repr

/-- One iteration of the loop body (lines 120-173) for one catalog element:
skip, or append the assembled entry and checkpoint when the accumulated count
is a multiple of `SAVE_EVERY`. -/
def stepApp (env : Env) (cfg : Config) (s : LoopState) (app : CatalogEntry) : LoopState :=
  match processApp env app with
  | none => s
  | some entry =>
    let results := s.results ++ [entry]
    { results := results
      tmpFile := if results.length % cfg.SAVE_EVERY == 0 then some results else s.tmpFile }

/-- The accumulation loop over a list of catalog elements. -/
def runLoop (env : Env) (cfg : Config) (apps : List CatalogEntry) (s : LoopState) : LoopState :=
  apps.foldl (stepApp env cfg) s

/-- The loop's initial state: empty results, no checkpoint written. -/
def initState : LoopState := { results := [], tmpFile := none }

/-- The loop state after processing `apps` from a fresh start. -/
def accumulate (env : Env) (cfg : Config) (apps : List CatalogEntry) : LoopState :=
  runLoop env cfg apps initState

/-- Line 118 and the slice at line 120: `apps[:limit]` where `limit` is
`MAX_APPS` when positive and `len(apps)` otherwise. -/
def effectiveApps (cfg : Config) (apps : List CatalogEntry) : List CatalogEntry :=
  if cfg.MAX_APPS > 0 then apps.take cfg.MAX_APPS else apps

/-- Stable descending insertion by `positive_rate_jp`: the inserted element
goes before the first element whose rate is at most its own, i.e. after every
earlier-accumulated element with a strictly greater rate. -/
def insertDesc (x : RankingEntry) : List RankingEntry → List RankingEntry
  | [] => [x]
  | y :: ys =>
    if y.positive_rate_jp ≤ x.positive_rate_jp then x :: y :: ys else y :: insertDesc x ys

/-- Model of line 176, `results.sort(key=..., reverse=True)`: the stable sort
descending by `positive_rate_jp` (CPython's list.sort is stable; any stable
sort for this total preorder yields the same list). -/
def sortByRateDesc : List RankingEntry → List RankingEntry
  | [] => []
  | x :: xs => insertDesc x (sortByRateDesc xs)

/-- Python falsiness of the `STEAM_API_KEY` value at line 112: unset (`None`)
or the empty string. -/
def keyMissing : Option String → Bool
  | none => true
  | some k => k == ""

/-- The files a run leaves behind: content of `data.json` and of
`data_partial.json` (`none` = not present). -/
structure FileSystem where
  outFile : Option (List RankingEntry)
  tmpFile : Option (List RankingEntry)
deriving DecidableEq, Repr

/-- The observable outcome of `main`: the files written, whether the catalog
endpoint was called, and the final sorted result list (`none` when the run
aborted before producing one). -/
structure RunResult where
  fs : FileSystem
  catalogFetched : Bool
  finalResults : Option (List RankingEntry)
deriving DecidableEq, Repr

/-- Model of `main` (lines 111-186): abort early when the key is falsy (no
catalog fetch, no file written); otherwise run the loop over the capped
catalog, sort descending by `positive_rate_jp`, write `data.json`, and remove
`data_partial.json`. -/
def main (key : Option String) (env : Env) (cfg : Config) : RunResult :=
  if keyMissing key then
    { fs := { outFile := none, tmpFile := none }, catalogFetched := false, finalResults := none }
  else
    let st := accumulate env cfg (effectiveApps cfg env.appList)
    let sorted := sortByRateDesc st.results
    { fs := { outFile := some sorted, tmpFile := none }
      catalogFetched := true
      finalResults := some sorted }

/-- Concrete run for the C1 witness: the Japanese review endpoint answers 200
but without a `query_summary` field, so every id is excluded. -/
def envW1 : Env :=
  { appList := [⟨570, "Dota 2"⟩]
    jp := fun _ => Fetch.resp 200 none
    allLang := fun _ => Fetch.resp 200 none
    details := fun _ => Fetch.resp 200 none }

/-- Concrete run for the C2 witness: 450 positive of 500 Japanese reviews. -/
def envW2 : Env :=
  { appList := [⟨570, "Dota 2"⟩]
    jp := fun _ => Fetch.resp 200 (some ⟨500, 450, 50⟩)
    allLang := fun _ => Fetch.resp 200 (some ⟨1000, 900, 100⟩)
    details := fun _ => Fetch.resp 200 (some ⟨true, ⟨some "9 Jul, 2013", ["Action"], ["Multi-player"], none⟩⟩) }

/-- The entry `processApp` assembles in the `envW2` run. -/
def entryW2 : RankingEntry :=
  { appid := 570
    name := "Dota 2"
    release_date := some "9 Jul, 2013"
    genres := ["Action"]
    categories := ["Multi-player"]
    total_reviews_jp := 500
    positive_rate_jp := 90
    total_reviews_all := some 1000
    positive_rate_all := some 90
    store_url := "https://store.steampowered.com/app/570"
    image_url := "https://cdn.akamai.steamstatic.com/steam/apps/570/capsule_231x87.jpg"
    price_initial := none
    price_final := none
    discount_percent := none }

/-- Concrete run for the C4 witness: the all-languages endpoint answers 502. -/
def envW4 : Env :=
  { appList := [⟨570, "Dota 2"⟩]
    jp := fun _ => Fetch.resp 200 (some ⟨500, 450, 50⟩)
    allLang := fun _ => Fetch.resp 502 (some ⟨1000, 900, 100⟩)
    details := fun _ =>
      Fetch.resp 200 (some ⟨true, ⟨some "9 Jul, 2013", ["Action"], ["Multi-player"], none⟩⟩) }

/-- The details record `get_app_details` extracts in the `envW4` run. -/
def dW4 : AppDetails :=
  { release_date := some "9 Jul, 2013"
    genres := ["Action"]
    categories := ["Multi-player"]
    price_initial := none
    price_final := none
    discount_percent := none }

/-- Concrete run for the C5 witness: the details endpoint raises. -/
def envW5 : Env :=
  { appList := [⟨570, "Dota 2"⟩]
    jp := fun _ => Fetch.resp 200 (some ⟨500, 450, 50⟩)
    allLang := fun _ => Fetch.resp 200 (some ⟨1000, 900, 100⟩)
    details := fun _ => Fetch.exn }

/-- Concrete run for C6: two catalog ids, both qualifying, `SAVE_EVERY = 2`. -/
def envC6 : Env :=
  { appList := [⟨1, "A"⟩, ⟨2, "B"⟩]
    jp := fun _ => Fetch.resp 200 (some ⟨500, 450, 50⟩)
    allLang := fun _ => Fetch.resp 200 none
    details := fun _ => Fetch.resp 200 (some ⟨true, ⟨none, [], [], none⟩⟩) }

/-- Concrete run for the C10 witness: appid 7 occurs twice in the catalog and
qualifies both times. -/
def envW10 : Env :=
  { appList := [⟨7, "A"⟩, ⟨9, "C"⟩, ⟨7, "B"⟩]
    jp := fun _ => Fetch.resp 200 (some ⟨500, 450, 50⟩)
    allLang := fun _ => Fetch.resp 200 none
    details := fun _ => Fetch.resp 200 (some ⟨true, ⟨none, [], [], none⟩⟩) }

/-! ### Basic lemmas about per-app processing -/

theorem processApp_eq_some_iff {env : Env} {app : CatalogEntry} {e : RankingEntry} :
    processApp env app = some e ↔
      ∃ jp d, get_review_summary (env.jp app.appid) = some jp ∧
        ¬jp.total_reviews < 200 ∧
        get_app_details (env.details app.appid) = some d ∧
        e = mkEntry app jp (allFields (get_review_summary (env.allLang app.appid))) d := by
  unfold processApp
  cases hjp : get_review_summary (env.jp app.appid) with
  | none => simp
  | some jp =>
    by_cases hlt : jp.total_reviews < 200
    · simp [hlt]
    · cases hd : get_app_details (env.details app.appid) with
      | none => simp [hlt, hd]
      | some d =>
        have h200 : 200 ≤ jp.total_reviews := not_lt.mp hlt
        simp [hlt, hd, h200, eq_comm]

theorem processApp_appid {env : Env} {app : CatalogEntry} {e : RankingEntry}
    (h : processApp env app = some e) : e.appid = app.appid := by
  obtain ⟨jp, d, -, -, -, rfl⟩ := processApp_eq_some_iff.mp h
  rfl

theorem processApp_eq_none_of_jp_absent {env : Env} {app : CatalogEntry}
    (h : get_review_summary (env.jp app.appid) = none) : processApp env app = none := by
  unfold processApp
  rw [h]

theorem processApp_eq_none_of_below {env : Env} {app : CatalogEntry} {s : ReviewSummary}
    (hs : get_review_summary (env.jp app.appid) = some s) (h : s.total_reviews < 200) :
    processApp env app = none := by
  unfold processApp
  rw [hs]
  simp [h]

theorem processApp_eq_none_of_details_absent {env : Env} {app : CatalogEntry}
    (h : get_app_details (env.details app.appid) = none) : processApp env app = none := by
  unfold processApp
  cases get_review_summary (env.jp app.appid) with
  | none => rfl
  | some jp =>
    by_cases hlt : jp.total_reviews < 200 <;> simp [hlt, h]

/-! ### Lemmas about the accumulation loop -/

theorem runLoop_nil (env : Env) (cfg : Config) (s : LoopState) :
    runLoop env cfg [] s = s := rfl

theorem runLoop_cons (env : Env) (cfg : Config) (a : CatalogEntry) (apps : List CatalogEntry)
    (s : LoopState) :
    runLoop env cfg (a :: apps) s = runLoop env cfg apps (stepApp env cfg s a) := rfl

theorem stepApp_results (env : Env) (cfg : Config) (s : LoopState) (app : CatalogEntry) :
    (stepApp env cfg s app).results = s.results ++ (processApp env app).toList := by
  unfold stepApp
  cases processApp env app with
  | none => simp
  | some e => simp

theorem stepApp_tmp (env : Env) (cfg : Config) (s : LoopState) (app : CatalogEntry) :
    (stepApp env cfg s app).tmpFile = s.tmpFile ∨
      (stepApp env cfg s app).tmpFile = some (stepApp env cfg s app).results := by
  unfold stepApp
  cases processApp env app with
  | none => exact Or.inl rfl
  | some e =>
    dsimp only
    split
    · exact Or.inr rfl
    · exact Or.inl rfl

theorem runLoop_results (env : Env) (cfg : Config) (apps : List CatalogEntry) (s : LoopState) :
    (runLoop env cfg apps s).results = s.results ++ apps.filterMap (processApp env) := by
  induction apps generalizing s with
  | nil => simp [runLoop_nil]
  | cons a apps ih =>
    rw [runLoop_cons, ih, stepApp_results]
    cases h : processApp env a <;> simp [h]

theorem accumulate_results (env : Env) (cfg : Config) (apps : List CatalogEntry) :
    (accumulate env cfg apps).results = apps.filterMap (processApp env) := by
  rw [accumulate, runLoop_results]
  rfl

/-- Every state the loop reaches keeps any property that all producible entries
have, both in `results` and in the checkpoint file content. -/
theorem runLoop_preserves (P : RankingEntry → Prop) (env : Env) (cfg : Config)
    (apps : List CatalogEntry) (s : LoopState)
    (hP : ∀ app e, processApp env app = some e → P e)
    (hres : ∀ e ∈ s.results, P e)
    (htmp : ∀ L, s.tmpFile = some L → ∀ e ∈ L, P e) :
    (∀ e ∈ (runLoop env cfg apps s).results, P e) ∧
      (∀ L, (runLoop env cfg apps s).tmpFile = some L → ∀ e ∈ L, P e) := by
  induction apps generalizing s with
  | nil => exact ⟨hres, htmp⟩
  | cons a apps ih =>
    rw [runLoop_cons]
    have hres' : ∀ e ∈ (stepApp env cfg s a).results, P e := by
      rw [stepApp_results]
      intro e he
      rcases List.mem_append.mp he with he | he
      · exact hres e he
      · cases h : processApp env a with
        | none => rw [h] at he; simp at he
        | some e0 =>
          rw [h] at he
          simp at he
          exact he ▸ hP a e0 h
    have htmp' : ∀ L, (stepApp env cfg s a).tmpFile = some L → ∀ e ∈ L, P e := by
      rcases stepApp_tmp env cfg s a with h | h
      · rw [h]
        exact htmp
      · rw [h]
        intro L hL
        rw [Option.some_inj] at hL
        subst hL
        exact hres'
    exact ih _ hres' htmp'

/-- Checkpoint invariant of the loop: whenever the accumulated count is a
positive multiple of `SAVE_EVERY`, the checkpoint file holds exactly the
accumulated list. -/
theorem runLoop_tmp_of_dvd (env : Env) (cfg : Config) (apps : List CatalogEntry) (s : LoopState)
    (hs : s.results.length % cfg.SAVE_EVERY = 0 ∧ 0 < s.results.length →
      s.tmpFile = some s.results) :
    (runLoop env cfg apps s).results.length % cfg.SAVE_EVERY = 0 ∧
        0 < (runLoop env cfg apps s).results.length →
      (runLoop env cfg apps s).tmpFile = some (runLoop env cfg apps s).results := by
  induction apps generalizing s with
  | nil => exact hs
  | cons a apps ih =>
    rw [runLoop_cons]
    refine ih _ ?_
    cases h : processApp env a with
    | none =>
      have hstep : stepApp env cfg s a = s := by
        unfold stepApp
        rw [h]
      rw [hstep]
      exact hs
    | some e0 =>
      intro hcond
      by_cases hmod : (s.results.length + 1) % cfg.SAVE_EVERY = 0
      · simp [stepApp, h, hmod]
      · have hr : (stepApp env cfg s a).results = s.results ++ [e0] := by
          simp [stepApp, h]
        rw [hr] at hcond
        simp only [List.length_append, List.length_cons, List.length_nil] at hcond
        exact absurd hcond.1 hmod

/-! ### Lemmas about the stable descending sort -/

theorem insertDesc_perm (x : RankingEntry) (l : List RankingEntry) :
    List.Perm (insertDesc x l) (x :: l) := by
  induction l with
  | nil => exact List.Perm.refl _
  | cons y ys ih =>
    unfold insertDesc
    split
    · exact List.Perm.refl _
    · exact List.Perm.trans (List.Perm.cons y ih) (List.Perm.swap x y ys)

theorem sortByRateDesc_perm (l : List RankingEntry) :
    List.Perm (sortByRateDesc l) l := by
  induction l with
  | nil => exact List.Perm.refl _
  | cons x xs ih =>
    exact List.Perm.trans (insertDesc_perm x (sortByRateDesc xs)) (List.Perm.cons x ih)

theorem mem_insertDesc {z x : RankingEntry} {l : List RankingEntry}
    (h : z ∈ insertDesc x l) : z = x ∨ z ∈ l := by
  have := (insertDesc_perm x l).mem_iff.mp h
  simpa using this

theorem pairwise_insertDesc (x : RankingEntry) (l : List RankingEntry)
    (h : l.Pairwise fun a b => b.positive_rate_jp ≤ a.positive_rate_jp) :
    (insertDesc x l).Pairwise fun a b => b.positive_rate_jp ≤ a.positive_rate_jp := by
  induction l with
  | nil => simp [insertDesc]
  | cons y ys ih =>
    rw [List.pairwise_cons] at h
    obtain ⟨hy, hys⟩ := h
    unfold insertDesc
    split
    · rename_i hle
      refine List.pairwise_cons.mpr ⟨?_, List.pairwise_cons.mpr ⟨hy, hys⟩⟩
      intro z hz
      rcases List.mem_cons.mp hz with rfl | hz
      · exact hle
      · exact le_trans (hy z hz) hle
    · rename_i hgt
      refine List.pairwise_cons.mpr ⟨?_, ih hys⟩
      intro z hz
      rcases mem_insertDesc hz with rfl | hz
      · exact le_of_lt (lt_of_not_ge hgt)
      · exact hy z hz

theorem pairwise_sortByRateDesc (l : List RankingEntry) :
    (sortByRateDesc l).Pairwise fun a b => b.positive_rate_jp ≤ a.positive_rate_jp := by
  induction l with
  | nil => simp [sortByRateDesc]
  | cons x xs ih => exact pairwise_insertDesc x (sortByRateDesc xs) ih

theorem filter_insertDesc (x : RankingEntry) (l : List RankingEntry) (q : ℚ) :
    (insertDesc x l).filter (fun e => decide (e.positive_rate_jp = q)) =
      if x.positive_rate_jp = q then
        x :: l.filter (fun e => decide (e.positive_rate_jp = q))
      else l.filter (fun e => decide (e.positive_rate_jp = q)) := by
  induction l with
  | nil =>
    by_cases hx : x.positive_rate_jp = q <;> simp [insertDesc, List.filter, hx]
  | cons y ys ih =>
    unfold insertDesc
    split
    · rename_i hle
      by_cases hx : x.positive_rate_jp = q <;>
        by_cases hy : y.positive_rate_jp = q <;>
          simp [List.filter_cons, hx, hy]
    · rename_i hgt
      by_cases hx : x.positive_rate_jp = q
      · have hy : ¬y.positive_rate_jp = q := by
          intro hy
          exact hgt (le_of_eq (hy.trans hx.symm))
        simp [List.filter_cons, hx, hy, ih]
      · by_cases hy : y.positive_rate_jp = q <;>
          simp [List.filter_cons, hx, hy, ih]

theorem filter_sortByRateDesc (l : List RankingEntry) (q : ℚ) :
    (sortByRateDesc l).filter (fun e => decide (e.positive_rate_jp = q)) =
      l.filter (fun e => decide (e.positive_rate_jp = q)) := by
  induction l with
  | nil => rfl
  | cons x xs ih =>
    rw [sortByRateDesc, filter_insertDesc, ih]
    by_cases hx : x.positive_rate_jp = q <;> simp [List.filter_cons, hx]

/-! ### Lemmas about the rounded percentage -/

theorem round2_nonneg {q : ℚ} (h : 0 ≤ q) : 0 ≤ round2 q := by
  unfold round2
  have h1 : (0 : ℚ) ≤ q * 100 := by positivity
  have h2 := sub_half_lt_round (q * 100)
  have h3 : (0 : ℤ) ≤ round (q * 100) := by
    by_contra hc
    push_neg at hc
    have hc' : ((round (q * 100) : ℤ) : ℚ) ≤ -1 := by
      have : round (q * 100) ≤ -1 := by omega
      exact_mod_cast this
    linarith
  have h4 : (0 : ℚ) ≤ ((round (q * 100) : ℤ) : ℚ) := by exact_mod_cast h3
  positivity

theorem round2_le_100 {q : ℚ} (h : q ≤ 100) : round2 q ≤ 100 := by
  unfold round2
  have h2 := round_le_add_half (q * 100)
  have h3 : round (q * 100) ≤ 10000 := by
    by_contra hc
    push_neg at hc
    have hc' : (10001 : ℚ) ≤ ((round (q * 100) : ℤ) : ℚ) := by
      have : (10001 : ℤ) ≤ round (q * 100) := by omega
      exact_mod_cast this
    linarith
  have h4 : ((round (q * 100) : ℤ) : ℚ) ≤ 10000 := by exact_mod_cast h3
  linarith

theorem abs_round2_sub (q : ℚ) : |round2 q - q| ≤ 1 / 200 := by
  unfold round2
  have h := abs_sub_round (q * 100)
  rw [abs_sub_comm] at h
  have heq : ((round (q * 100) : ℤ) : ℚ) / 100 - q = ((round (q * 100) : ℤ) - q * 100) / 100 := by
    ring
  rw [heq, abs_div]
  have h100 : |(100 : ℚ)| = 100 := by norm_num
  rw [h100]
  linarith

/-- Counting produced entries with a given appid: when every catalog occurrence
of that appid qualifies, the produced list has one entry per occurrence. -/
theorem countP_filterMap_processApp (env : Env) (l : List CatalogEntry) (id : ℕ)
    (hq : ∀ a ∈ l, a.appid = id → (processApp env a).isSome) :
    (l.filterMap (processApp env)).countP (fun e => decide (e.appid = id)) =
      l.countP (fun a => decide (a.appid = id)) := by
  induction l with
  | nil => rfl
  | cons a l ih =>
    have hq' : ∀ b ∈ l, b.appid = id → (processApp env b).isSome := by
      intro b hb
      exact hq b (List.mem_cons_of_mem a hb)
    cases hpa : processApp env a with
    | none =>
      have hna : ¬a.appid = id := by
        intro hid
        have := hq a (List.mem_cons_self a l) hid
        rw [hpa] at this
        simp at this
      simp [List.filterMap_cons, hpa, List.countP_cons, hna, ih hq']
    | some e =>
      have he : e.appid = a.appid := processApp_appid hpa
      by_cases hid : a.appid = id <;>
        simp [List.filterMap_cons, hpa, List.countP_cons, he, hid, ih hq']

/-! ### Claim theorems -/

/-- C1: for every id whose Japanese review summary is absent or whose Japanese
`total_reviews` is strictly below 200, no RankingEntry with that id is ever
produced: not in the accumulated results after any number of processed catalog
elements (hence in no checkpoint written along the way), not in the checkpoint
file content, not in the sorted list, and not in the final output file. -/
theorem C1_low_jp_ids_never_materialized (env : Env) (cfg : Config)
    (apps : List CatalogEntry) (id : ℕ)
    (hbad : get_review_summary (env.jp id) = none ∨
      ∃ s, get_review_summary (env.jp id) = some s ∧ s.total_reviews < 200) :
    (∀ e ∈ (accumulate env cfg apps).results, e.appid ≠ id) ∧
    (∀ L, (accumulate env cfg apps).tmpFile = some L → ∀ e ∈ L, e.appid ≠ id) ∧
    (∀ e ∈ sortByRateDesc (accumulate env cfg apps).results, e.appid ≠ id) ∧
    (∀ key L, (main key env cfg).fs.outFile = some L → ∀ e ∈ L, e.appid ≠ id) := by
  have hP : ∀ app e, processApp env app = some e → e.appid ≠ id := by
    intro app e h hid
    have happ : app.appid = id := (processApp_appid h) ▸ hid
    rcases hbad with hb | ⟨s, hs, hlt⟩
    · have hb' : get_review_summary (env.jp app.appid) = none := by rw [happ]; exact hb
      rw [processApp_eq_none_of_jp_absent hb'] at h
      exact Option.noConfusion h
    · have hs' : get_review_summary (env.jp app.appid) = some s := by rw [happ]; exact hs
      rw [processApp_eq_none_of_below hs' hlt] at h
      exact Option.noConfusion h
  have hrun := runLoop_preserves (fun e => e.appid ≠ id) env cfg apps initState hP
    (by simp [initState]) (by simp [initState])
  refine ⟨hrun.1, hrun.2, ?_, ?_⟩
  · intro e he
    exact hrun.1 e ((sortByRateDesc_perm _).mem_iff.mp he)
  · intro key L hL e he
    by_cases hk : keyMissing key = true
    · simp [main, hk] at hL
    · simp only [main, hk, Bool.false_eq_true, if_false, Option.some_inj] at hL
      have h2 := runLoop_preserves (fun e => e.appid ≠ id) env cfg
        (effectiveApps cfg env.appList) initState hP (by simp [initState]) (by simp [initState])
      subst hL
      exact h2.1 e ((sortByRateDesc_perm _).mem_iff.mp he)

theorem C1_witness :
    (get_review_summary (envW1.jp 570) = none ∨
      ∃ s, get_review_summary (envW1.jp 570) = some s ∧ s.total_reviews < 200) ∧
    ((∀ e ∈ (accumulate envW1 ⟨0, 50⟩ envW1.appList).results, e.appid ≠ 570) ∧
      (∀ L, (accumulate envW1 ⟨0, 50⟩ envW1.appList).tmpFile = some L →
        ∀ e ∈ L, e.appid ≠ 570) ∧
      (∀ e ∈ sortByRateDesc (accumulate envW1 ⟨0, 50⟩ envW1.appList).results, e.appid ≠ 570) ∧
      (∀ key L, (main key envW1 ⟨0, 50⟩).fs.outFile = some L → ∀ e ∈ L, e.appid ≠ 570)) :=
  ⟨Or.inl rfl,
    C1_low_jp_ids_never_materialized envW1 ⟨0, 50⟩ envW1.appList 570 (Or.inl rfl)⟩

/-- C2: every produced entry's `positive_rate_jp` lies in `[0, 100]`, is an
integer multiple of `1/100` (two decimal places), and differs from the exact
value `total_positive_jp / total_reviews_jp * 100` by at most half a unit in
the last place.  The upper bound uses that the review summary is well formed
(`total_positive ≤ total_reviews`), which holds of real review counts. -/
theorem C2_positive_rate_jp_bounds (env : Env) (app : CatalogEntry) (e : RankingEntry)
    (hwf : ∀ s, get_review_summary (env.jp app.appid) = some s →
      s.total_positive ≤ s.total_reviews)
    (h : processApp env app = some e) :
    0 ≤ e.positive_rate_jp ∧ e.positive_rate_jp ≤ 100 ∧
      (∃ m : ℤ, e.positive_rate_jp = (m : ℚ) / 100) ∧
      ∃ s, get_review_summary (env.jp app.appid) = some s ∧
        e.total_reviews_jp = s.total_reviews ∧
        e.positive_rate_jp = round2 ((s.total_positive : ℚ) / (s.total_reviews : ℚ) * 100) ∧
        |e.positive_rate_jp - (s.total_positive : ℚ) / (s.total_reviews : ℚ) * 100| ≤ 1 / 200 := by
  obtain ⟨jp, d, hjp, hlt, hd, rfl⟩ := processApp_eq_some_iff.mp h
  have hple : jp.total_positive ≤ jp.total_reviews := hwf jp hjp
  have ht : 0 < jp.total_reviews := lt_of_lt_of_le (by norm_num) (not_lt.mp hlt)
  have htq : (0 : ℚ) < (jp.total_reviews : ℚ) := by exact_mod_cast ht
  have hrate :
      (mkEntry app jp (allFields (get_review_summary (env.allLang app.appid))) d).positive_rate_jp
        = round2 ((jp.total_positive : ℚ) / (jp.total_reviews : ℚ) * 100) := rfl
  have hqnn : 0 ≤ (jp.total_positive : ℚ) / (jp.total_reviews : ℚ) * 100 := by positivity
  have hq100 : (jp.total_positive : ℚ) / (jp.total_reviews : ℚ) * 100 ≤ 100 := by
    have h1 : (jp.total_positive : ℚ) / (jp.total_reviews : ℚ) ≤ 1 := by
      rw [div_le_one htq]
      exact_mod_cast hple
    nlinarith
  rw [hrate]
  exact ⟨round2_nonneg hqnn, round2_le_100 hq100,
    ⟨round ((jp.total_positive : ℚ) / (jp.total_reviews : ℚ) * 100 * 100), rfl⟩,
    jp, hjp, rfl, rfl, abs_round2_sub _⟩

set_option maxRecDepth 4000 in
theorem C2_witness :
    processApp envW2 ⟨570, "Dota 2"⟩ = some entryW2 ∧
    (0 ≤ entryW2.positive_rate_jp ∧ entryW2.positive_rate_jp ≤ 100 ∧
      (∃ m : ℤ, entryW2.positive_rate_jp = (m : ℚ) / 100) ∧
      ∃ s, get_review_summary (envW2.jp (570 : ℕ)) = some s ∧
        entryW2.total_reviews_jp = s.total_reviews ∧
        entryW2.positive_rate_jp
          = round2 ((s.total_positive : ℚ) / (s.total_reviews : ℚ) * 100) ∧
        |entryW2.positive_rate_jp - (s.total_positive : ℚ) / (s.total_reviews : ℚ) * 100|
          ≤ 1 / 200) := by
  have h : processApp envW2 ⟨570, "Dota 2"⟩ = some entryW2 := by
    with_unfolding_all decide
  refine ⟨h, C2_positive_rate_jp_bounds envW2 ⟨570, "Dota 2"⟩ entryW2 ?_ h⟩
  intro s hs
  have : s = (⟨500, 450, 50⟩ : ReviewSummary) := by
    simp [envW2, get_review_summary] at hs
    exact hs.symm
  rw [this]
  norm_num

/-- C3: the persisted result set is the stable descending sort of the
accumulated list by `positive_rate_jp`: it is pairwise `≥` on that field (so
every adjacent pair is `≥`), entries with any fixed rate appear in exactly
their accumulation order, and the output is a permutation of the accumulated
list.  The final `main` output enjoys the same sortedness. -/
theorem C3_output_sorted_descending_stable (env : Env) (cfg : Config)
    (apps : List CatalogEntry) :
    ((sortByRateDesc (accumulate env cfg apps).results).Pairwise
        fun a b => b.positive_rate_jp ≤ a.positive_rate_jp) ∧
    (∀ q : ℚ,
      (sortByRateDesc (accumulate env cfg apps).results).filter
          (fun e => decide (e.positive_rate_jp = q)) =
        (accumulate env cfg apps).results.filter (fun e => decide (e.positive_rate_jp = q))) ∧
    List.Perm (sortByRateDesc (accumulate env cfg apps).results)
      (accumulate env cfg apps).results ∧
    (∀ key res, (main key env cfg).finalResults = some res →
      res.Pairwise fun a b => b.positive_rate_jp ≤ a.positive_rate_jp) := by
  refine ⟨pairwise_sortByRateDesc _, fun q => filter_sortByRateDesc _ q,
    sortByRateDesc_perm _, ?_⟩
  intro key res hres
  by_cases hk : keyMissing key = true
  · simp [main, hk] at hres
  · simp only [main, hk, Bool.false_eq_true, if_false, Option.some_inj] at hres
    exact hres ▸ pairwise_sortByRateDesc _

theorem C3_witness :
    ((sortByRateDesc (accumulate envW2 ⟨0, 50⟩ envW2.appList).results).Pairwise
        fun a b => b.positive_rate_jp ≤ a.positive_rate_jp) ∧
    (∀ q : ℚ,
      (sortByRateDesc (accumulate envW2 ⟨0, 50⟩ envW2.appList).results).filter
          (fun e => decide (e.positive_rate_jp = q)) =
        (accumulate envW2 ⟨0, 50⟩ envW2.appList).results.filter
          (fun e => decide (e.positive_rate_jp = q))) ∧
    List.Perm (sortByRateDesc (accumulate envW2 ⟨0, 50⟩ envW2.appList).results)
      (accumulate envW2 ⟨0, 50⟩ envW2.appList).results ∧
    (∀ key res, (main key envW2 ⟨0, 50⟩).finalResults = some res →
      res.Pairwise fun a b => b.positive_rate_jp ≤ a.positive_rate_jp) :=
  C3_output_sorted_descending_stable envW2 ⟨0, 50⟩ envW2.appList

/-- C4: for an id that qualifies on the Japanese summary and whose details are
present, absence of the all-languages summary (non-200, exception or missing
`query_summary`) still produces the entry, with `total_reviews_all = None` and
`positive_rate_all = None` and every other field populated from the Japanese
summary, the catalog element and the details. -/
theorem C4_all_languages_absence_degrades_gracefully (env : Env) (app : CatalogEntry)
    (jp : ReviewSummary) (d : AppDetails)
    (hjp : get_review_summary (env.jp app.appid) = some jp)
    (hq : ¬jp.total_reviews < 200)
    (hall : get_review_summary (env.allLang app.appid) = none)
    (hd : get_app_details (env.details app.appid) = some d) :
    processApp env app = some
      { appid := app.appid
        name := app.name.trim
        release_date := d.release_date
        genres := d.genres
        categories := d.categories
        total_reviews_jp := jp.total_reviews
        positive_rate_jp := round2 ((jp.total_positive : ℚ) / (jp.total_reviews : ℚ) * 100)
        total_reviews_all := none
        positive_rate_all := none
        store_url := "https://store.steampowered.com/app/" ++ toString app.appid
        image_url :=
          "https://cdn.akamai.steamstatic.com/steam/apps/" ++ toString app.appid
            ++ "/capsule_231x87.jpg"
        price_initial := d.price_initial
        price_final := d.price_final
        discount_percent := d.discount_percent } := by
  unfold processApp
  rw [hjp, hall, hd]
  dsimp only
  rw [if_neg hq]
  rfl

set_option maxRecDepth 4000 in
theorem C4_witness :
    (get_review_summary (envW4.jp (570 : ℕ)) = some ⟨500, 450, 50⟩ ∧
      ¬(⟨500, 450, 50⟩ : ReviewSummary).total_reviews < 200 ∧
      get_review_summary (envW4.allLang (570 : ℕ)) = none ∧
      get_app_details (envW4.details (570 : ℕ)) = some dW4) ∧
    processApp envW4 ⟨570, "Dota 2"⟩ = some
      { appid := 570
        name := "Dota 2"
        release_date := some "9 Jul, 2013"
        genres := ["Action"]
        categories := ["Multi-player"]
        total_reviews_jp := 500
        positive_rate_jp := 90
        total_reviews_all := none
        positive_rate_all := none
        store_url := "https://store.steampowered.com/app/570"
        image_url := "https://cdn.akamai.steamstatic.com/steam/apps/570/capsule_231x87.jpg"
        price_initial := none
        price_final := none
        discount_percent := none } := by
  have h1 : get_review_summary (envW4.jp (570 : ℕ)) = some ⟨500, 450, 50⟩ := rfl
  have h2 : ¬(⟨500, 450, 50⟩ : ReviewSummary).total_reviews < 200 := by decide
  have h3 : get_review_summary (envW4.allLang (570 : ℕ)) = none := rfl
  have h4 : get_app_details (envW4.details (570 : ℕ)) = some dW4 := by
    with_unfolding_all decide
  refine ⟨⟨h1, h2, h3, h4⟩,
    (C4_all_languages_absence_degrades_gracefully envW4 ⟨570, "Dota 2"⟩ ⟨500, 450, 50⟩ dW4
      h1 h2 h3 h4).trans ?_⟩
  with_unfolding_all decide

/-- C5: when the details fetch is absent (exception, non-200 status, response
without the appid key, or a false `success` flag), `get_app_details` returns
`None`, the id is skipped entirely (no entry is produced, the loop state is
unchanged) and the loop continues with the remaining ids. -/
theorem C5_details_absence_skips_id (env : Env) (cfg : Config) (app : CatalogEntry)
    (s : LoopState)
    (habs : env.details app.appid = Fetch.exn ∨
      (∃ st b, env.details app.appid = Fetch.resp st b ∧ st ≠ 200) ∨
      (∃ st, env.details app.appid = Fetch.resp st none) ∨
      (∃ st o, env.details app.appid = Fetch.resp st (some o) ∧ o.success = false)) :
    get_app_details (env.details app.appid) = none ∧
    processApp env app = none ∧
    stepApp env cfg s app = s ∧
    ∀ rest, runLoop env cfg (app :: rest) s = runLoop env cfg rest s := by
  have hdet : get_app_details (env.details app.appid) = none := by
    rcases habs with h | ⟨st, b, h, hst⟩ | ⟨st, h⟩ | ⟨st, o, h, hsucc⟩
    · rw [h]
      rfl
    · rw [h]
      unfold get_app_details
      simp [hst]
    · rw [h]
      unfold get_app_details
      dsimp only
      split <;> rfl
    · rw [h]
      unfold get_app_details
      dsimp only
      split
      · rfl
      · simp [hsucc]
  have hproc : processApp env app = none := processApp_eq_none_of_details_absent hdet
  have hstep : stepApp env cfg s app = s := by
    unfold stepApp
    rw [hproc]
  refine ⟨hdet, hproc, hstep, ?_⟩
  intro rest
  rw [runLoop_cons, hstep]

theorem C5_witness :
    (envW5.details (570 : ℕ) = Fetch.exn ∨
      (∃ st b, envW5.details (570 : ℕ) = Fetch.resp st b ∧ st ≠ 200) ∨
      (∃ st, envW5.details (570 : ℕ) = Fetch.resp st none) ∨
      (∃ st o, envW5.details (570 : ℕ) = Fetch.resp st (some o) ∧ o.success = false)) ∧
    (get_app_details (envW5.details (570 : ℕ)) = none ∧
      processApp envW5 ⟨570, "Dota 2"⟩ = none ∧
      stepApp envW5 ⟨0, 50⟩ initState ⟨570, "Dota 2"⟩ = initState ∧
      ∀ rest, runLoop envW5 ⟨0, 50⟩ (⟨570, "Dota 2"⟩ :: rest) initState =
        runLoop envW5 ⟨0, 50⟩ rest initState) :=
  ⟨Or.inl rfl,
    C5_details_absence_skips_id envW5 ⟨0, 50⟩ ⟨570, "Dota 2"⟩ initState (Or.inl rfl)⟩

/-- C6 (amended): after processing exactly `SAVE_EVERY * k` qualifying entries
(`k ≥ 1`, `SAVE_EVERY > 0`), the checkpoint file exists and contains exactly
those `SAVE_EVERY * k` accumulated entries (the claim's "k entries" miscounts);
and after a successful run `main` leaves no checkpoint file. -/
theorem C6_checkpoint_invariant (env : Env) (cfg : Config) (apps : List CatalogEntry)
    (key : Option String) (k : ℕ)
    (hse : 0 < cfg.SAVE_EVERY) (hk : 1 ≤ k)
    (hlen : (accumulate env cfg apps).results.length = cfg.SAVE_EVERY * k) :
    ((accumulate env cfg apps).tmpFile = some (accumulate env cfg apps).results ∧
      (accumulate env cfg apps).tmpFile.map List.length = some (cfg.SAVE_EVERY * k)) ∧
    (main key env cfg).fs.tmpFile = none := by
  have htmp : (accumulate env cfg apps).tmpFile = some (accumulate env cfg apps).results := by
    refine runLoop_tmp_of_dvd env cfg apps initState (by simp [initState]) ⟨?_, ?_⟩
    · have h1 : (runLoop env cfg apps initState).results.length = cfg.SAVE_EVERY * k := hlen
      rw [h1]
      exact Nat.mul_mod_right _ _
    · have h1 : (runLoop env cfg apps initState).results.length = cfg.SAVE_EVERY * k := hlen
      rw [h1]
      exact Nat.mul_pos hse hk
  refine ⟨⟨htmp, ?_⟩, ?_⟩
  · rw [htmp]
    simp [hlen]
  · by_cases hkey : keyMissing key = true <;> simp [main, hkey]

set_option maxRecDepth 8000 in
/-- C6 counterexample to the claim as stated: with `SAVE_EVERY = 2` and `k = 1`,
after processing exactly `SAVE_EVERY * k = 2` qualifying entries the checkpoint
file exists but contains 2 entries, not `k = 1` entries. -/
theorem C6_counterexample :
    (accumulate envC6 ⟨0, 2⟩ envC6.appList).results.length = (⟨0, 2⟩ : Config).SAVE_EVERY * 1 ∧
    (accumulate envC6 ⟨0, 2⟩ envC6.appList).tmpFile.map List.length = some 2 ∧
    (accumulate envC6 ⟨0, 2⟩ envC6.appList).tmpFile.map List.length ≠ some 1 := by
  refine ⟨?_, ?_, ?_⟩ <;> with_unfolding_all decide

set_option maxRecDepth 8000 in
theorem C6_witness :
    (0 < (⟨0, 2⟩ : Config).SAVE_EVERY ∧ 1 ≤ 1 ∧
      (accumulate envC6 ⟨0, 2⟩ envC6.appList).results.length =
        (⟨0, 2⟩ : Config).SAVE_EVERY * 1) ∧
    (((accumulate envC6 ⟨0, 2⟩ envC6.appList).tmpFile =
        some (accumulate envC6 ⟨0, 2⟩ envC6.appList).results ∧
      (accumulate envC6 ⟨0, 2⟩ envC6.appList).tmpFile.map List.length =
        some ((⟨0, 2⟩ : Config).SAVE_EVERY * 1)) ∧
      (main (some "key") envC6 ⟨0, 2⟩).fs.tmpFile = none) := by
  have hlen : (accumulate envC6 ⟨0, 2⟩ envC6.appList).results.length =
      (⟨0, 2⟩ : Config).SAVE_EVERY * 1 := by
    with_unfolding_all decide
  exact ⟨⟨by decide, le_refl 1, hlen⟩,
    C6_checkpoint_invariant envC6 ⟨0, 2⟩ envC6.appList (some "key") 1 (by decide)
      (le_refl 1) hlen⟩

/-- C7: when the API-key credential is absent (unset or empty, the Python-falsy
cases), the run aborts before any fetching: the catalog endpoint is not called,
no output file and no checkpoint file are written, and no result list is
produced.  (The printed error message is console output, outside this model.) -/
theorem C7_missing_key_aborts (key : Option String) (env : Env) (cfg : Config)
    (h : keyMissing key = true) :
    main key env cfg =
      { fs := { outFile := none, tmpFile := none }
        catalogFetched := false
        finalResults := none } := by
  simp [main, h]

theorem C7_witness :
    keyMissing none = true ∧
    main none envW1 ⟨0, 50⟩ =
      { fs := { outFile := none, tmpFile := none }
        catalogFetched := false
        finalResults := none } :=
  ⟨rfl, C7_missing_key_aborts none envW1 ⟨0, 50⟩ rfl⟩

/-- C8: the pipeline is a deterministic function of the credential, the
configuration and the upstream data: two runs observing the same catalog and
the same responses on every appid produce equal `RunResult`s, in particular
equal output-file contents (so the serialized bytes, a function of that
content, are identical). -/
theorem C8_deterministic (key : Option String) (cfg : Config) (env₁ env₂ : Env)
    (happs : env₁.appList = env₂.appList)
    (hjp : ∀ a, env₁.jp a = env₂.jp a)
    (hall : ∀ a, env₁.allLang a = env₂.allLang a)
    (hdet : ∀ a, env₁.details a = env₂.details a) :
    main key env₁ cfg = main key env₂ cfg ∧
    (main key env₁ cfg).fs.outFile = (main key env₂ cfg).fs.outFile := by
  have henv : env₁ = env₂ := by
    obtain ⟨a₁, j₁, l₁, d₁⟩ := env₁
    obtain ⟨a₂, j₂, l₂, d₂⟩ := env₂
    have h1 : a₁ = a₂ := happs
    have h2 : j₁ = j₂ := funext hjp
    have h3 : l₁ = l₂ := funext hall
    have h4 : d₁ = d₂ := funext hdet
    rw [h1, h2, h3, h4]
  rw [henv]
  exact ⟨rfl, rfl⟩

theorem C8_witness :
    (envW2.appList = envW2.appList ∧ (∀ a, envW2.jp a = envW2.jp a) ∧
      (∀ a, envW2.allLang a = envW2.allLang a) ∧ (∀ a, envW2.details a = envW2.details a)) ∧
    (main (some "key") envW2 ⟨0, 50⟩ = main (some "key") envW2 ⟨0, 50⟩ ∧
      (main (some "key") envW2 ⟨0, 50⟩).fs.outFile =
        (main (some "key") envW2 ⟨0, 50⟩).fs.outFile) :=
  ⟨⟨rfl, fun _ => rfl, fun _ => rfl, fun _ => rfl⟩,
    C8_deterministic (some "key") ⟨0, 50⟩ envW2 envW2 rfl
      (fun _ => rfl) (fun _ => rfl) (fun _ => rfl)⟩

/-- C9: whenever an entry is produced, the qualification guard has ensured
`total_reviews_jp ≥ 200 > 0`, so the unguarded divisor of the Japanese rate
computation is nonzero and the computation is exactly the rounded quotient
(the `ZeroDivisionError` branch is unreachable). -/
theorem C9_jp_rate_division_never_by_zero (env : Env) (app : CatalogEntry) (e : RankingEntry)
    (h : processApp env app = some e) :
    200 ≤ e.total_reviews_jp ∧ 0 < e.total_reviews_jp ∧ ((e.total_reviews_jp : ℚ) ≠ 0) ∧
      ∃ s, get_review_summary (env.jp app.appid) = some s ∧
        e.total_reviews_jp = s.total_reviews ∧
        e.positive_rate_jp = round2 ((s.total_positive : ℚ) / (s.total_reviews : ℚ) * 100) := by
  obtain ⟨jp, d, hjp, hlt, hd, rfl⟩ := processApp_eq_some_iff.mp h
  have h200 : 200 ≤ jp.total_reviews := not_lt.mp hlt
  refine ⟨h200, ?_, ?_, jp, hjp, rfl, rfl⟩
  · show 0 < jp.total_reviews
    omega
  · show ((jp.total_reviews : ℕ) : ℚ) ≠ 0
    exact Nat.cast_ne_zero.mpr (by omega)

set_option maxRecDepth 4000 in
theorem C9_witness :
    processApp envW2 ⟨570, "Dota 2"⟩ = some entryW2 ∧
    (200 ≤ entryW2.total_reviews_jp ∧ 0 < entryW2.total_reviews_jp ∧
      ((entryW2.total_reviews_jp : ℚ) ≠ 0) ∧
      ∃ s, get_review_summary (envW2.jp (570 : ℕ)) = some s ∧
        entryW2.total_reviews_jp = s.total_reviews ∧
        entryW2.positive_rate_jp
          = round2 ((s.total_positive : ℚ) / (s.total_reviews : ℚ) * 100)) := by
  have h : processApp envW2 ⟨570, "Dota 2"⟩ = some entryW2 := by
    with_unfolding_all decide
  exact ⟨h, C9_jp_rate_division_never_by_zero envW2 ⟨570, "Dota 2"⟩ entryW2 h⟩

/-- C10: the pipeline performs no de-duplication.  With the default unlimited
cap, the accumulated (pre-sort) list is exactly `filterMap processApp` over the
catalog (one entry per occurrence, in catalog-iteration order); hence when an
appid occurs `n` times and every occurrence qualifies, exactly `n` entries
carry that appid. -/
theorem C10_no_deduplication (env : Env) (cfg : Config) (id : ℕ) (n : ℕ)
    (hcap : cfg.MAX_APPS = 0)
    (hn : env.appList.countP (fun a => decide (a.appid = id)) = n)
    (hq : ∀ a ∈ env.appList, a.appid = id → (processApp env a).isSome) :
    (accumulate env cfg (effectiveApps cfg env.appList)).results =
      env.appList.filterMap (processApp env) ∧
    (accumulate env cfg (effectiveApps cfg env.appList)).results.countP
      (fun e => decide (e.appid = id)) = n := by
  have heff : effectiveApps cfg env.appList = env.appList := by
    simp [effectiveApps, hcap]
  rw [heff, accumulate_results]
  exact ⟨rfl, (countP_filterMap_processApp env env.appList id hq).trans hn⟩

set_option maxRecDepth 8000 in
theorem C10_witness :
    ((⟨0, 50⟩ : Config).MAX_APPS = 0 ∧
      envW10.appList.countP (fun a => decide (a.appid = 7)) = 2 ∧
      (∀ a ∈ envW10.appList, a.appid = 7 → (processApp envW10 a).isSome)) ∧
    ((accumulate envW10 ⟨0, 50⟩ (effectiveApps ⟨0, 50⟩ envW10.appList)).results =
        envW10.appList.filterMap (processApp envW10) ∧
      (accumulate envW10 ⟨0, 50⟩ (effectiveApps ⟨0, 50⟩ envW10.appList)).results.countP
        (fun e => decide (e.appid = 7)) = 2) := by
  have h1 : (⟨0, 50⟩ : Config).MAX_APPS = 0 := rfl
  have h2 : envW10.appList.countP (fun a => decide (a.appid = 7)) = 2 := by decide
  have h3 : ∀ a ∈ envW10.appList, a.appid = 7 → (processApp envW10 a).isSome := by
    with_unfolding_all decide
  exact ⟨⟨h1, h2, h3⟩, C10_no_deduplication envW10 ⟨0, 50⟩ 7 2 h1 h2 h3⟩

end SS2
